import Mathlib

/-!
Verification of the backup cleanup manager
(`cmd/backup-manager/app/clean/manager.go` of tidb-operator).

The Go code is shallowly embedded: external collaborators (the backup
lister, the status updater, the three remote deletion primitives, the
size calculator and the byte humanizer) are fields of an `Env` record,
errors are `Option String` (`none` = nil error, `some msg` = an error
whose `Error()` is `msg`), and the observable side effects of one
cleanup invocation (status-update calls, deletion calls, log lines) are
collected in an event trace, in program order.
-/

namespace TidbBackupClean

/-- Backup mode (`Spec.Mode`); the code only distinguishes
`volume-snapshot` from everything else. -/
inductive BackupMode
  | normal
  | volumeSnapshot
deriving DecidableEq, Repr

/-- One backup CR, with the fields `performCleanBackup`, `getNextBackup`,
`getVolumeSnapshotBackup` and `updateVolumeSnapshotBackupSize` read:
namespace and name, `Spec.Mode`, the optional `Spec.BR` descriptor
(only its presence is tested), `Spec.StorageProvider` (opaque token
handed to the external primitives), `Status.BackupPath` and
`Status.TimeStarted`. -/
structure Backup where
  ns : String
  name : String
  mode : BackupMode
  br : Option Unit
  storageProvider : String
  backupPath : String
  timeStarted : Nat
deriving DecidableEq, Repr

/-- Condition type tag (`v1alpha1.BackupFailed` / `BackupClean` /
`BackupComplete`). -/
inductive CondType
  | failed
  | clean
  | complete
deriving DecidableEq, Repr

/-- A `v1alpha1.BackupCondition` as built by the manager:
type, status (`corev1.ConditionTrue` = `true`), reason, message
(zero value `""` when the Go literal omits the field). -/
structure BackupCondition where
  ctype : CondType
  condStatus : Bool
  reason : String
  message : String
deriving DecidableEq, Repr

/-- A `controller.BackupUpdateStatus` as built by
`updateVolumeSnapshotBackupSize`: both pointers are set. -/
structure BackupUpdateStatus where
  backupSize : Int
  backupSizeReadable : String
deriving DecidableEq, Repr

/-- The log lines the manager emits (`klog` calls), tagged; lines whose
format string interpolates an error message carry that message. -/
inductive LogMsg
  | emptyPath
  | nextBackupNil
  | deleteBackupFailed
  | calcSizeWarn (msg : String)
  | cleanFailed (msg : String)
  | cleanSuccess
deriving DecidableEq, Repr

/-- One observable action of a cleanup invocation: a
`StatusUpdater.Update` call, a call to one of the three deletion
primitives, or a log line. -/
inductive Event
  | update (b : Backup) (cond : BackupCondition) (st : Option BackupUpdateStatus)
  | deleteVolSnapshots (b : Backup)
  | deleteBR (b : Backup)
  | deleteRemote (path : String) (opts : String)
  | log (m : LogMsg)
deriving DecidableEq, Repr

/-- External collaborators of the manager.  `list ns` is
`backupLister.Backups(ns).List(labels.Everything())` (`none` = the
listing returned an error); `cleanVolSnapshots`, `cleanBR` and
`cleanRemote` are `cleanBackupMetaWithVolSnapshots`,
`CleanBRRemoteBackupData` and `cleanRemoteBackupData`; `getOptions` is
`util.GetOptions` (result kept opaque); `calcVolSnapSize` is
`util.CalcVolSnapBackupSize` (a value/error pair, as in Go);
`humanizeBytes` is `humanize.Bytes`; `statusUpdate` is
`StatusUpdater.Update`; `bmDesc` is the manager's `%s` rendering used in
messages. -/
structure Env where
  bmDesc : String
  list : String → Option (List Backup)
  cleanVolSnapshots : Backup → Option String
  cleanBR : Backup → Option String
  cleanRemote : String → String → Option String
  getOptions : String → String
  calcVolSnapSize : String → Int × Option String
  humanizeBytes : Nat → String
  statusUpdate : Backup → BackupCondition → Option BackupUpdateStatus → Option String

/-- Insert a backup into a list that is ascending by `Status.TimeStarted`. -/
def insertByTime (b : Backup) : List Backup → List Backup
  | [] => [b]
  | x :: xs =>
    if b.timeStarted ≤ x.timeStarted then b :: x :: xs
    else x :: insertByTime b xs

/-- The `sort.Slice` call of `getNextBackup`: sort the listed backups
ascending by `Status.TimeStarted` (`TimeStarted.Before` is the strict
order on start times; ties are left unspecified by the source and
resolved here by insertion order). -/
def sortByTime : List Backup → List Backup
  | [] => []
  | x :: xs => insertByTime x (sortByTime xs)

/-- `getVolumeSnapshotBackup`: first backup of the list whose mode is
`volume-snapshot`, `none` at the end of the list. -/
def getVolumeSnapshotBackup : List Backup → Option Backup
  | [] => none
  | bk :: rest =>
    if bk.mode = BackupMode.volumeSnapshot then some bk
    else getVolumeSnapshotBackup rest

/-- The locate loop of `getNextBackup`: scan for the first element whose
name equals `n` and return the remainder of the list after it
(`bks[i+1:]`), `none` if no element matches. -/
def findAfterName (n : String) : List Backup → Option (List Backup)
  | [] => none
  | bk :: rest =>
    if n = bk.name then some rest
    else findAfterName n rest

/-- `getNextBackup` on an already-obtained listing: sort by start time,
locate the target by name, and take the first volume-snapshot backup
strictly after it. -/
def getNextBackupL (bks : List Backup) (backup : Backup) : Option Backup :=
  match findAfterName backup.name (sortByTime bks) with
  | some rest => getVolumeSnapshotBackup rest
  | none => none

/-- `getNextBackup`: list the target's namespace (returning `none` when
the listing errors), then chain-navigate as in `getNextBackupL`. -/
def getNextBackup (env : Env) (backup : Backup) : Option Backup :=
  match env.list backup.ns with
  | none => none
  | some bks => getNextBackupL bks backup

/-- The `Failed`/`BackupPathIsEmpty` condition literal. -/
def emptyPathCondition (env : Env) : BackupCondition :=
  ⟨CondType.failed, true, "BackupPathIsEmpty",
    "the cluster " ++ env.bmDesc ++ " backup path is empty"⟩

/-- The `Failed`/`CleanBackupDataFailed` condition literal, carrying
`err.Error()`. -/
def cleanFailedCondition (msg : String) : BackupCondition :=
  ⟨CondType.failed, true, "CleanBackupDataFailed", msg⟩

/-- The `Clean` condition literal (reason and message left at their zero
value). -/
def cleanCondition : BackupCondition :=
  ⟨CondType.clean, true, "", ""⟩

/-- The `Complete` condition literal used for the successor's size
update. -/
def completeCondition : BackupCondition :=
  ⟨CondType.complete, true, "", ""⟩

/-- Go's `uint64(i)` conversion of an `int64`, as a natural number. -/
def toUInt64Wrap (i : Int) : Nat :=
  (i % (2 ^ 64 : Int)).toNat

/-- `errorutils.NewAggregate`: drop nil errors; the empty aggregate is
the nil error (modelled as the empty list of messages). -/
def newAggregate (errs : List (Option String)) : List String :=
  errs.filterMap id

/-- A nil-or-single error as an error list. -/
def errToList : Option String → List String
  | none => []
  | some m => [m]

/-- `updateVolumeSnapshotBackupSize`: compute the size via the
calculator, log a warning if the calculator errs (but proceed), and
issue one `Complete` status update carrying the size and its
human-readable rendering; the result is the status write's result. -/
def updateVolumeSnapshotBackupSize (env : Env) (backup : Backup) :
    List Event × Option String :=
  let r := env.calcVolSnapSize backup.storageProvider
  let warnLogs : List Event :=
    match r.2 with
    | some m => [Event.log (LogMsg.calcSizeWarn m)]
    | none => []
  let st : BackupUpdateStatus :=
    ⟨r.1, env.humanizeBytes (toUInt64Wrap r.1)⟩
  (warnLogs ++ [Event.update backup completeCondition (some st)],
    env.statusUpdate backup completeCondition (some st))

/-- Log lines emitted when `getNextBackup` returned nil. -/
def nilLogOf : Option Backup → List Event
  | none => [Event.log LogMsg.nextBackupNil]
  | some _ => []

/-- Log lines emitted when the volume-snapshot deletion failed. -/
def delFailLogOf : Option String → List Event
  | some _ => [Event.log LogMsg.deleteBackupFailed]
  | none => []

/-- Events of the successor size update, when a successor exists; its
error result is discarded by the caller. -/
def updEventsOf (env : Env) : Option Backup → List Event
  | some nb => (updateVolumeSnapshotBackupSize env nb).1
  | none => []

/-- The dispatch part of `performCleanBackup` (the code between the
empty-path check and the outcome report): on `volume-snapshot` mode,
chain-navigate, delete the snapshot chain, and (if a successor exists)
update its size, the dispatch error being the deletion's error; on any
other mode, call the dedicated BR deletion when `Spec.BR` is present,
else the generic deletion on the stored path with options derived from
the storage provider. -/
def dispatchClean (env : Env) (backup : Backup) :
    List Event × Option String :=
  if backup.mode = BackupMode.volumeSnapshot then
    let nextB := getNextBackup env backup
    let derr := env.cleanVolSnapshots backup
    (nilLogOf nextB ++ [Event.deleteVolSnapshots backup]
        ++ delFailLogOf derr ++ updEventsOf env nextB,
      derr)
  else if backup.br.isSome then
    ([Event.deleteBR backup], env.cleanBR backup)
  else
    ([Event.deleteRemote backup.backupPath
        (env.getOptions backup.storageProvider)],
      env.cleanRemote backup.backupPath
        (env.getOptions backup.storageProvider))

/-- `performCleanBackup`: empty `Status.BackupPath` short-circuits to a
single `Failed`/`BackupPathIsEmpty` status write whose result is
returned; otherwise dispatch, then either report
`Failed`/`CleanBackupDataFailed` and return the aggregate of the
dispatch error and the status write's error, or report `Clean` and
return the status write's result. -/
def performCleanBackup (env : Env) (backup : Backup) :
    List Event × List String :=
  if backup.backupPath = "" then
    let cond := emptyPathCondition env
    ([Event.log LogMsg.emptyPath, Event.update backup cond none],
      errToList (env.statusUpdate backup cond none))
  else
    let d := dispatchClean env backup
    match d.2 with
    | some e =>
      let cond := cleanFailedCondition e
      let uerr := env.statusUpdate backup cond none
      (d.1 ++ [Event.log (LogMsg.cleanFailed e), Event.update backup cond none],
        newAggregate [some e, uerr])
    | none =>
      (d.1 ++ [Event.log LogMsg.cleanSuccess,
          Event.update backup cleanCondition none],
        errToList (env.statusUpdate backup cleanCondition none))

/-- Is the event a `StatusUpdater.Update` call? -/
def isUpdateEvent : Event → Bool
  | Event.update _ _ _ => true
  | _ => false

/-- Is the event a call to one of the three deletion primitives? -/
def isDeletionEvent : Event → Bool
  | Event.deleteVolSnapshots _ => true
  | Event.deleteBR _ => true
  | Event.deleteRemote _ _ => true
  | _ => false

/-- Is the event a status write of an outcome condition (`Failed` or
`Clean`) on the record named like `t`? -/
def isOutcomeUpdateOn (t : Backup) : Event → Bool
  | Event.update b c _ =>
    b.name == t.name
      && (c.ctype == CondType.failed || c.ctype == CondType.clean)
  | _ => false

/-- Is the event a status write of a `Failed`/`CleanBackupDataFailed`
condition on the record named like `t`? -/
def isCleanFailedUpdateOn (t : Backup) : Event → Bool
  | Event.update b c _ =>
    b.name == t.name && c.reason == "CleanBackupDataFailed"
  | _ => false

/-- Does the log event carry the error message `m`? -/
def logCarries (m : String) : Event → Bool
  | Event.log (LogMsg.calcSizeWarn s) => s == m
  | Event.log (LogMsg.cleanFailed s) => s == m
  | _ => false

/-- Ascending by start time, the order `sort.Slice` establishes. -/
def SortedT (l : List Backup) : Prop :=
  l.Pairwise (fun a b => a.timeStarted ≤ b.timeStarted)

lemma insertByTime_perm (b : Backup) (l : List Backup) :
    List.Perm (insertByTime b l) (b :: l) := by
  induction l with
  | nil => exact List.Perm.refl [b]
  | cons x xs ih =>
    by_cases h : b.timeStarted ≤ x.timeStarted
    · rw [insertByTime, if_pos h]
    · rw [insertByTime, if_neg h]
      exact (ih.cons x).trans (List.Perm.swap b x xs)

lemma sortByTime_perm (l : List Backup) :
    List.Perm (sortByTime l) l := by
  induction l with
  | nil => exact List.Perm.refl []
  | cons x xs ih =>
    exact (insertByTime_perm x (sortByTime xs)).trans (ih.cons x)

lemma mem_insertByTime {x b : Backup} {l : List Backup} :
    x ∈ insertByTime b l ↔ x = b ∨ x ∈ l := by
  rw [(insertByTime_perm b l).mem_iff]
  simp

lemma sortedT_insertByTime {b : Backup} {l : List Backup}
    (h : SortedT l) : SortedT (insertByTime b l) := by
  induction l with
  | nil =>
    rw [insertByTime]
    exact List.pairwise_cons.mpr ⟨by simp, List.Pairwise.nil⟩
  | cons x xs ih =>
    rcases (List.pairwise_cons.mp h) with ⟨hx, hxs⟩
    by_cases hb : b.timeStarted ≤ x.timeStarted
    · rw [insertByTime, if_pos hb]
      refine List.pairwise_cons.mpr ⟨?_, h⟩
      intro c hc
      rcases List.mem_cons.mp hc with rfl | hc
      · exact hb
      · exact le_trans hb (hx c hc)
    · rw [insertByTime, if_neg hb]
      refine List.pairwise_cons.mpr ⟨?_, ih hxs⟩
      intro c hc
      rcases mem_insertByTime.mp hc with rfl | hc
      · exact le_of_not_le hb
      · exact hx c hc

lemma sortByTime_sortedT (l : List Backup) : SortedT (sortByTime l) := by
  induction l with
  | nil => simp [sortByTime, SortedT]
  | cons x xs ih => exact sortedT_insertByTime ih

lemma findAfterName_some_decomp {n : String} {l suf : List Backup}
    (h : findAfterName n l = some suf) :
    ∃ pre tt, l = pre ++ tt :: suf ∧ tt.name = n ∧
      ∀ p ∈ pre, p.name ≠ n := by
  induction l generalizing suf with
  | nil => simp [findAfterName] at h
  | cons bk rest ih =>
    by_cases hn : n = bk.name
    · simp [findAfterName, hn] at h
      exact ⟨[], bk, by simp [h], hn.symm, by simp⟩
    · simp [findAfterName, hn] at h
      rcases ih h with ⟨pre, tt, rfl, htt, hpre⟩
      refine ⟨bk :: pre, tt, by simp, htt, ?_⟩
      intro p hp
      rcases List.mem_cons.mp hp with rfl | hp
      · exact fun hc => hn hc.symm
      · exact hpre p hp

lemma findAfterName_none {n : String} {l : List Backup}
    (h : ∀ b ∈ l, b.name ≠ n) : findAfterName n l = none := by
  induction l with
  | nil => simp [findAfterName]
  | cons bk rest ih =>
    have hbk : ¬ n = bk.name := fun hc => h bk (by simp) hc.symm
    simp [findAfterName, hbk]
    exact ih fun b hb => h b (by simp [hb])

lemma findAfterName_append {n : String} {pre suf : List Backup}
    {tt : Backup} (hpre : ∀ p ∈ pre, p.name ≠ n) (htt : tt.name = n) :
    findAfterName n (pre ++ tt :: suf) = some suf := by
  induction pre with
  | nil => simp [findAfterName, htt.symm]
  | cons p ps ih =>
    have hp : ¬ n = p.name := fun hc => hpre p (by simp) hc.symm
    simp only [List.cons_append, findAfterName, hp, if_false]
    exact ih fun q hq => hpre q (by simp [hq])

lemma findAfterName_isSome {n : String} {l : List Backup}
    {tt : Backup} (htt : tt ∈ l) (hn : tt.name = n) :
    ∃ suf, findAfterName n l = some suf := by
  induction l with
  | nil => simp at htt
  | cons bk rest ih =>
    by_cases hb : n = bk.name
    · exact ⟨rest, by simp [findAfterName, hb]⟩
    · rcases List.mem_cons.mp htt with rfl | htt
      · exact absurd hn.symm hb
      · simpa [findAfterName, hb] using ih htt

lemma getVolumeSnapshotBackup_some {l : List Backup} {s : Backup}
    (h : getVolumeSnapshotBackup l = some s) :
    ∃ pre suf, l = pre ++ s :: suf ∧
      s.mode = BackupMode.volumeSnapshot ∧
      ∀ p ∈ pre, p.mode ≠ BackupMode.volumeSnapshot := by
  induction l with
  | nil => simp [getVolumeSnapshotBackup] at h
  | cons bk rest ih =>
    by_cases hm : bk.mode = BackupMode.volumeSnapshot
    · simp [getVolumeSnapshotBackup, hm] at h
      exact ⟨[], rest, by simp [h], h ▸ hm, by simp⟩
    · simp [getVolumeSnapshotBackup, hm] at h
      rcases ih h with ⟨pre, suf, rfl, hs, hpre⟩
      refine ⟨bk :: pre, suf, by simp, hs, ?_⟩
      intro p hp
      rcases List.mem_cons.mp hp with rfl | hp
      · exact hm
      · exact hpre p hp

lemma getVolumeSnapshotBackup_none {l : List Backup}
    (h : getVolumeSnapshotBackup l = none) :
    ∀ b ∈ l, b.mode ≠ BackupMode.volumeSnapshot := by
  induction l with
  | nil => simp
  | cons bk rest ih =>
    by_cases hm : bk.mode = BackupMode.volumeSnapshot
    · simp [getVolumeSnapshotBackup, hm] at h
    · simp [getVolumeSnapshotBackup, hm] at h
      intro b hb
      rcases List.mem_cons.mp hb with rfl | hb
      · exact hm
      · exact ih h b hb

lemma strictT_of_sorted_nodup {l : List Backup}
    (hs : SortedT l) (ht : (l.map Backup.timeStarted).Nodup) :
    l.Pairwise (fun a b => a.timeStarted < b.timeStarted) := by
  have hne : l.Pairwise (fun a b => a.timeStarted ≠ b.timeStarted) :=
    List.pairwise_map.mp ht
  exact (hs.and hne).imp fun h => lt_of_le_of_ne h.1 h.2

/-- Characterization of `getNextBackup` on a fixed listing with distinct
names and distinct start times: a `some` result is a volume-snapshot
backup strictly after the target in start time and earliest among those;
a `none` result means no volume-snapshot backup starts after the
target. -/
lemma getNextBackupL_char (bks : List Backup) (t tt : Backup)
    (hn : (bks.map Backup.name).Nodup)
    (ht : (bks.map Backup.timeStarted).Nodup)
    (htt : tt ∈ bks) (hname : tt.name = t.name) :
    (∀ s, getNextBackupL bks t = some s →
        s ∈ bks ∧ s.mode = BackupMode.volumeSnapshot ∧
        tt.timeStarted < s.timeStarted ∧
        ∀ b ∈ bks, b.mode = BackupMode.volumeSnapshot →
          tt.timeStarted < b.timeStarted → s.timeStarted ≤ b.timeStarted)
    ∧ (getNextBackupL bks t = none →
        ∀ b ∈ bks, b.mode = BackupMode.volumeSnapshot →
          b.timeStarted ≤ tt.timeStarted) := by
  have hperm := sortByTime_perm bks
  have hmemL : tt ∈ sortByTime bks := hperm.mem_iff.mpr htt
  obtain ⟨suf, hfind⟩ := findAfterName_isSome hmemL hname
  obtain ⟨pre, tt', hdecomp, htt'name, hprenames⟩ :=
    findAfterName_some_decomp hfind
  have hnL : ((sortByTime bks).map Backup.name).Nodup :=
    ((hperm.map Backup.name).nodup_iff).mpr hn
  have htL : ((sortByTime bks).map Backup.timeStarted).Nodup :=
    ((hperm.map Backup.timeStarted).nodup_iff).mpr ht
  have htt'mem : tt' ∈ sortByTime bks := by rw [hdecomp]; simp
  have htteq : tt' = tt :=
    List.inj_on_of_nodup_map hnL htt'mem hmemL
      (by rw [htt'name, hname])
  rw [htteq] at hdecomp
  have hstrict :
      (sortByTime bks).Pairwise
        (fun a b => a.timeStarted < b.timeStarted) :=
    strictT_of_sorted_nodup (sortByTime_sortedT bks) htL
  rw [hdecomp, List.pairwise_append] at hstrict
  obtain ⟨hpre_p, hcons_p, hcross⟩ := hstrict
  rw [List.pairwise_cons] at hcons_p
  obtain ⟨htt_suf, hsuf_p⟩ := hcons_p
  have hGN : getNextBackupL bks t = getVolumeSnapshotBackup suf := by
    simp only [getNextBackupL, hfind]
  constructor
  · intro s hs
    rw [hGN] at hs
    obtain ⟨p2, s2, hsufdecomp, hsmode, hp2⟩ :=
      getVolumeSnapshotBackup_some hs
    have hs_mem_suf : s ∈ suf := by rw [hsufdecomp]; simp
    have hs_memL : s ∈ sortByTime bks := by
      rw [hdecomp]
      simp [hs_mem_suf]
    refine ⟨hperm.mem_iff.mp hs_memL, hsmode, htt_suf s hs_mem_suf, ?_⟩
    intro b hb hbmode hbtime
    have hbL : b ∈ pre ++ tt :: suf := by
      rw [← hdecomp]
      exact hperm.mem_iff.mpr hb
    rcases List.mem_append.mp hbL with hbpre | hbc
    · exact absurd hbtime (not_lt_of_gt (hcross b hbpre tt (by simp)))
    · rcases List.mem_cons.mp hbc with rfl | hbsuf
      · exact absurd hbtime (lt_irrefl _)
      · have hbsuf2 : b ∈ p2 ++ s :: s2 := by
          rw [← hsufdecomp]
          exact hbsuf
        rcases List.mem_append.mp hbsuf2 with hbp2 | hbc2
        · exact absurd hbmode (hp2 b hbp2)
        · rcases List.mem_cons.mp hbc2 with rfl | hbs2
          · exact le_refl _
          · have h2 := hsuf_p
            rw [hsufdecomp, List.pairwise_append] at h2
            exact le_of_lt ((List.pairwise_cons.mp h2.2.1).1 b hbs2)
  · intro hnone b hb hbmode
    rw [hGN] at hnone
    have hnoVS := getVolumeSnapshotBackup_none hnone
    have hbL : b ∈ pre ++ tt :: suf := by
      rw [← hdecomp]
      exact hperm.mem_iff.mpr hb
    rcases List.mem_append.mp hbL with hbpre | hbc
    · exact le_of_lt (hcross b hbpre tt (by simp))
    · rcases List.mem_cons.mp hbc with rfl | hbsuf
      · exact le_refl _
      · exact absurd hbmode (hnoVS b hbsuf)

/-- On listings with distinct names and distinct start times that are
permutations of one another, `getNextBackup` computes the same
successor: only the start-time order matters, not the listing order. -/
lemma getNextBackupL_perm_eq (bks bks' : List Backup) (t tt : Backup)
    (hp : List.Perm bks' bks)
    (hn : (bks.map Backup.name).Nodup)
    (ht : (bks.map Backup.timeStarted).Nodup)
    (htt : tt ∈ bks) (hname : tt.name = t.name) :
    getNextBackupL bks' t = getNextBackupL bks t := by
  have hn' : (bks'.map Backup.name).Nodup :=
    ((hp.map Backup.name).nodup_iff).mpr hn
  have ht' : (bks'.map Backup.timeStarted).Nodup :=
    ((hp.map Backup.timeStarted).nodup_iff).mpr ht
  have htt' : tt ∈ bks' := hp.mem_iff.mpr htt
  have c := getNextBackupL_char bks t tt hn ht htt hname
  have c' := getNextBackupL_char bks' t tt hn' ht' htt' hname
  cases h1 : getNextBackupL bks' t with
  | none =>
    cases h2 : getNextBackupL bks t with
    | none => rfl
    | some s =>
      obtain ⟨hsmem, hsmode, hstime, _⟩ := c.1 s h2
      have hge := c'.2 h1 s (hp.mem_iff.mpr hsmem) hsmode
      exact absurd hstime (not_lt_of_ge hge)
  | some s' =>
    cases h2 : getNextBackupL bks t with
    | none =>
      obtain ⟨hsmem', hsmode', hstime', _⟩ := c'.1 s' h1
      have hge := c.2 h2 s' (hp.mem_iff.mp hsmem') hsmode'
      exact absurd hstime' (not_lt_of_ge hge)
    | some s =>
      obtain ⟨hsmem', hsmode', hstime', hmin'⟩ := c'.1 s' h1
      obtain ⟨hsmem, hsmode, hstime, hmin⟩ := c.1 s h2
      have hle1 : s.timeStarted ≤ s'.timeStarted :=
        hmin s' (hp.mem_iff.mp hsmem') hsmode' hstime'
      have hle2 : s'.timeStarted ≤ s.timeStarted :=
        hmin' s (hp.mem_iff.mpr hsmem) hsmode hstime
      have hseq : s' = s :=
        List.inj_on_of_nodup_map ht (hp.mem_iff.mp hsmem') hsmem
          (le_antisymm hle2 hle1)
      rw [hseq]

/-- The `BackupUpdateStatus` written onto the chain successor: the
calculator's size and its human-readable rendering. -/
def succUpdateStatus (env : Env) (nb : Backup) : BackupUpdateStatus :=
  ⟨(env.calcVolSnapSize nb.storageProvider).1,
    env.humanizeBytes (toUInt64Wrap (env.calcVolSnapSize nb.storageProvider).1)⟩

lemma updSize_eq (env : Env) (b : Backup) :
    updateVolumeSnapshotBackupSize env b =
      ((match (env.calcVolSnapSize b.storageProvider).2 with
          | some m => [Event.log (LogMsg.calcSizeWarn m)]
          | none => []) ++
        [Event.update b completeCondition (some (succUpdateStatus env b))],
        env.statusUpdate b completeCondition (some (succUpdateStatus env b))) := by
  cases h : (env.calcVolSnapSize b.storageProvider).2 <;>
    simp [updateVolumeSnapshotBackupSize, succUpdateStatus, h]

lemma updSize_forall (env : Env) (b : Backup) :
    ∀ ev ∈ (updateVolumeSnapshotBackupSize env b).1,
      ev = Event.update b completeCondition (some (succUpdateStatus env b)) ∨
      ∃ m, ev = Event.log (LogMsg.calcSizeWarn m) := by
  intro ev hev
  rw [updSize_eq] at hev
  rcases List.mem_append.mp hev with h | h
  · right
    cases hc : (env.calcVolSnapSize b.storageProvider).2 with
    | none => rw [hc] at h; simp at h
    | some m =>
      rw [hc] at h
      simp at h
      exact ⟨m, h⟩
  · left
    simpa using h

lemma updSize_update_mem (env : Env) (b : Backup) :
    Event.update b completeCondition (some (succUpdateStatus env b)) ∈
      (updateVolumeSnapshotBackupSize env b).1 := by
  rw [updSize_eq]
  simp

lemma nilLogOf_log (o : Option Backup) :
    ∀ ev ∈ nilLogOf o, ∃ m, ev = Event.log m := by
  cases o <;> simp [nilLogOf]

lemma delFailLogOf_log (e : Option String) :
    ∀ ev ∈ delFailLogOf e, ∃ m, ev = Event.log m := by
  cases e <;> simp [delFailLogOf]

lemma dispatchClean_vs (env : Env) (t : Backup)
    (h : t.mode = BackupMode.volumeSnapshot) :
    dispatchClean env t =
      (nilLogOf (getNextBackup env t) ++ [Event.deleteVolSnapshots t]
          ++ delFailLogOf (env.cleanVolSnapshots t)
          ++ updEventsOf env (getNextBackup env t),
        env.cleanVolSnapshots t) := by
  simp [dispatchClean, h]

lemma dispatchClean_br (env : Env) (t : Backup)
    (h1 : t.mode ≠ BackupMode.volumeSnapshot) (h2 : t.br.isSome) :
    dispatchClean env t = ([Event.deleteBR t], env.cleanBR t) := by
  simp [dispatchClean, h1, h2]

lemma dispatchClean_generic (env : Env) (t : Backup)
    (h1 : t.mode ≠ BackupMode.volumeSnapshot) (h2 : t.br = none) :
    dispatchClean env t =
      ([Event.deleteRemote t.backupPath
          (env.getOptions t.storageProvider)],
        env.cleanRemote t.backupPath
          (env.getOptions t.storageProvider)) := by
  simp [dispatchClean, h1, h2]

/-- Every event of the dispatch phase is a log line, a deletion call, or
the single `Complete` size update of the chain successor. -/
lemma dispatch_events_shape (env : Env) (t : Backup) :
    ∀ ev ∈ (dispatchClean env t).1,
      (∃ m, ev = Event.log m) ∨ isDeletionEvent ev = true ∨
      ∃ nb, getNextBackup env t = some nb ∧
        ev = Event.update nb completeCondition
          (some (succUpdateStatus env nb)) := by
  intro ev hev
  by_cases h : t.mode = BackupMode.volumeSnapshot
  · rw [dispatchClean_vs env t h] at hev
    simp only [List.append_assoc, List.mem_append] at hev
    rcases hev with h1 | h1 | h1 | h1
    · exact Or.inl (nilLogOf_log _ ev h1)
    · right; left
      simp at h1
      rw [h1]
      rfl
    · exact Or.inl (delFailLogOf_log _ ev h1)
    · cases hnb : getNextBackup env t with
      | none => rw [hnb] at h1; simp [updEventsOf] at h1
      | some nb =>
        rw [hnb] at h1
        rcases updSize_forall env nb ev h1 with h2 | ⟨m, h2⟩
        · exact Or.inr (Or.inr ⟨nb, rfl, h2⟩)
        · exact Or.inl ⟨LogMsg.calcSizeWarn m, h2⟩
  · by_cases hbr : t.br.isSome
    · rw [dispatchClean_br env t h hbr] at hev
      simp at hev
      right; left
      rw [hev]
      rfl
    · rw [dispatchClean_generic env t h (Option.not_isSome_iff_eq_none.mp hbr)] at hev
      simp at hev
      right; left
      rw [hev]
      rfl

lemma dispatch_countP_outcome (env : Env) (t : Backup) :
    (dispatchClean env t).1.countP (isOutcomeUpdateOn t) = 0 := by
  rw [List.countP_eq_zero]
  intro ev hev
  rcases dispatch_events_shape env t ev hev with ⟨m, rfl⟩ | hdel | ⟨nb, _, rfl⟩
  · simp [isOutcomeUpdateOn]
  · cases ev <;> simp_all [isDeletionEvent, isOutcomeUpdateOn]
  · simp [isOutcomeUpdateOn, completeCondition]

lemma dispatch_countP_cleanFailed (env : Env) (t : Backup) :
    (dispatchClean env t).1.countP (isCleanFailedUpdateOn t) = 0 := by
  rw [List.countP_eq_zero]
  intro ev hev
  rcases dispatch_events_shape env t ev hev with ⟨m, rfl⟩ | hdel | ⟨nb, _, rfl⟩
  · simp [isCleanFailedUpdateOn]
  · cases ev <;> simp_all [isDeletionEvent, isCleanFailedUpdateOn]
  · simp [isCleanFailedUpdateOn, completeCondition]

lemma dispatch_countP_update_le_one (env : Env) (t : Backup) :
    (dispatchClean env t).1.countP isUpdateEvent ≤ 1 := by
  by_cases h : t.mode = BackupMode.volumeSnapshot
  · rw [dispatchClean_vs env t h]
    simp only [List.countP_append]
    have h1 : (nilLogOf (getNextBackup env t)).countP isUpdateEvent = 0 := by
      rw [List.countP_eq_zero]
      intro ev hev
      rcases nilLogOf_log _ ev hev with ⟨m, rfl⟩
      simp [isUpdateEvent]
    have h2 : (delFailLogOf (env.cleanVolSnapshots t)).countP isUpdateEvent = 0 := by
      rw [List.countP_eq_zero]
      intro ev hev
      rcases delFailLogOf_log _ ev hev with ⟨m, rfl⟩
      simp [isUpdateEvent]
    have h3 : (updEventsOf env (getNextBackup env t)).countP isUpdateEvent ≤ 1 := by
      cases hnb : getNextBackup env t with
      | none => simp [updEventsOf]
      | some nb =>
        show ((updateVolumeSnapshotBackupSize env nb).1.countP isUpdateEvent) ≤ 1
        rw [updSize_eq]
        cases (env.calcVolSnapSize nb.storageProvider).2 <;>
          simp [List.countP_append, List.countP_cons, isUpdateEvent]
    simp only [h1, h2]
    simpa [List.countP_cons, isUpdateEvent] using h3
  · by_cases hbr : t.br.isSome
    · rw [dispatchClean_br env t h hbr]
      simp [List.countP_cons, isUpdateEvent]
    · rw [dispatchClean_generic env t h (Option.not_isSome_iff_eq_none.mp hbr)]
      simp [List.countP_cons, isUpdateEvent]

lemma performClean_emptyPath (env : Env) (t : Backup)
    (h : t.backupPath = "") :
    performCleanBackup env t =
      ([Event.log LogMsg.emptyPath,
          Event.update t (emptyPathCondition env) none],
        errToList (env.statusUpdate t (emptyPathCondition env) none)) := by
  simp [performCleanBackup, h]

lemma performClean_fail (env : Env) (t : Backup) (evs : List Event)
    (e : String) (h1 : t.backupPath ≠ "")
    (h2 : dispatchClean env t = (evs, some e)) :
    performCleanBackup env t =
      (evs ++ [Event.log (LogMsg.cleanFailed e),
          Event.update t (cleanFailedCondition e) none],
        newAggregate [some e,
          env.statusUpdate t (cleanFailedCondition e) none]) := by
  simp [performCleanBackup, h1, h2]

lemma performClean_ok (env : Env) (t : Backup) (evs : List Event)
    (h1 : t.backupPath ≠ "")
    (h2 : dispatchClean env t = (evs, none)) :
    performCleanBackup env t =
      (evs ++ [Event.log LogMsg.cleanSuccess,
          Event.update t cleanCondition none],
        errToList (env.statusUpdate t cleanCondition none)) := by
  simp [performCleanBackup, h1, h2]

/-- The target's returned result on the volume-snapshot path, written
out: it is built from the deletion error and the target's own status
write only. -/
lemma performClean_vs_snd (env : Env) (t : Backup)
    (h1 : t.backupPath ≠ "") (h2 : t.mode = BackupMode.volumeSnapshot) :
    (performCleanBackup env t).2 =
      (match env.cleanVolSnapshots t with
        | some e => newAggregate [some e,
            env.statusUpdate t (cleanFailedCondition e) none]
        | none => errToList (env.statusUpdate t cleanCondition none)) := by
  cases hd : env.cleanVolSnapshots t with
  | none =>
    rw [performClean_ok env t _ h1 (by rw [dispatchClean_vs env t h2, hd])]
  | some e =>
    rw [performClean_fail env t _ e h1 (by rw [dispatchClean_vs env t h2, hd])]

/-- The target's result is unchanged by any modification of the
environment that keeps the chain deletion primitive and the target's own
status writes fixed: in particular the successor update and the chain
lookup never feed into it. -/
lemma performClean_vs_snd_congr (env env' : Env) (t : Backup)
    (h1 : t.backupPath ≠ "") (h2 : t.mode = BackupMode.volumeSnapshot)
    (hc : env'.cleanVolSnapshots t = env.cleanVolSnapshots t)
    (hu : ∀ c st, env'.statusUpdate t c st = env.statusUpdate t c st) :
    (performCleanBackup env' t).2 = (performCleanBackup env t).2 := by
  rw [performClean_vs_snd env t h1 h2, performClean_vs_snd env' t h1 h2, hc]
  cases env.cleanVolSnapshots t with
  | none => simp [hu]
  | some e => simp [hu]

lemma performClean_trace_extends_dispatch (env : Env) (t : Backup)
    (h : t.backupPath ≠ "") :
    ∃ tail, (performCleanBackup env t).1 = (dispatchClean env t).1 ++ tail := by
  cases hd2 : (dispatchClean env t).2 with
  | some e => exact ⟨_, by rw [performClean_fail env t _ e h (by rw [← hd2])]⟩
  | none => exact ⟨_, by rw [performClean_ok env t _ h (by rw [← hd2])]⟩

/-- C4: with an empty artifact path, cleanup short-circuits: the whole
trace is one log line and one `Failed`/`BackupPathIsEmpty` status write
on the target (exactly one outcome condition, no deletion call), and the
returned result is exactly the status write's result. -/
theorem c4_empty_path_short_circuit (env : Env) (t : Backup)
    (h : t.backupPath = "") :
    (performCleanBackup env t).1 =
      [Event.log LogMsg.emptyPath,
        Event.update t (emptyPathCondition env) none] ∧
    (performCleanBackup env t).1.countP (isOutcomeUpdateOn t) = 1 ∧
    (∀ ev ∈ (performCleanBackup env t).1, isDeletionEvent ev = false) ∧
    (performCleanBackup env t).2 =
      errToList (env.statusUpdate t (emptyPathCondition env) none) := by
  rw [performClean_emptyPath env t h]
  refine ⟨rfl, ?_, ?_, rfl⟩
  · simp [List.countP_cons, isOutcomeUpdateOn, emptyPathCondition]
  · intro ev hev
    simp only [List.mem_cons, List.not_mem_nil, or_false] at hev
    rcases hev with rfl | rfl <;> rfl

/-- C3: on a non-empty artifact path whose selected deletion fails with
message `e`, cleanup writes exactly one `Failed`/`CleanBackupDataFailed`
condition, its message is the deletion error's message, and the result
is the aggregate of the deletion error and the status write's own error;
when the status write succeeds the result is still the non-empty
aggregate holding the deletion failure. -/
theorem c3_failure_aggregation (env : Env) (t : Backup) (e : String)
    (h1 : t.backupPath ≠ "") (h2 : (dispatchClean env t).2 = some e) :
    (performCleanBackup env t).1.countP (isCleanFailedUpdateOn t) = 1 ∧
    Event.update t (cleanFailedCondition e) none ∈
      (performCleanBackup env t).1 ∧
    (performCleanBackup env t).2 =
      newAggregate [some e,
        env.statusUpdate t (cleanFailedCondition e) none] ∧
    e ∈ (performCleanBackup env t).2 ∧
    (env.statusUpdate t (cleanFailedCondition e) none = none →
      (performCleanBackup env t).2 = [e]) := by
  have hd : dispatchClean env t = ((dispatchClean env t).1, some e) := by
    rw [← h2]
  have hP := performClean_fail env t (dispatchClean env t).1 e h1 hd
  rw [hP]
  refine ⟨?_, ?_, rfl, ?_, ?_⟩
  · rw [List.countP_append, dispatch_countP_cleanFailed]
    simp [List.countP_cons, isCleanFailedUpdateOn, cleanFailedCondition]
  · simp
  · cases env.statusUpdate t (cleanFailedCondition e) none <;>
      simp [newAggregate]
  · intro hu
    simp [newAggregate, hu]

/-- C9: on a non-empty artifact path whose selected deletion succeeds,
cleanup writes exactly one `Clean` condition with an empty message on
the target and returns exactly the status write's result, `[]` when that
write succeeds. -/
theorem c9_success_reporting (env : Env) (t : Backup)
    (h1 : t.backupPath ≠ "") (h2 : (dispatchClean env t).2 = none) :
    (performCleanBackup env t).1.count
      (Event.update t cleanCondition none) = 1 ∧
    cleanCondition.message = "" ∧
    (performCleanBackup env t).2 =
      errToList (env.statusUpdate t cleanCondition none) ∧
    (env.statusUpdate t cleanCondition none = none →
      (performCleanBackup env t).2 = []) := by
  have hd : dispatchClean env t = ((dispatchClean env t).1, none) := by
    rw [← h2]
  rw [performClean_ok env t (dispatchClean env t).1 h1 hd]
  refine ⟨?_, rfl, rfl, ?_⟩
  · rw [List.count_append]
    have h0 : (dispatchClean env t).1.count
        (Event.update t cleanCondition none) = 0 := by
      rw [List.count_eq_zero]
      intro hmem
      rcases dispatch_events_shape env t _ hmem with ⟨m, hm⟩ | hdel | ⟨nb, _, hup⟩
      · simp at hm
      · simp [isDeletionEvent] at hdel
      · simp [cleanCondition, completeCondition] at hup
    rw [h0]
    simp [List.count_cons]
  · intro hu
    simp [errToList, hu]

lemma performClean_filter_deletion (env : Env) (t : Backup)
    (h : t.backupPath ≠ "") :
    (performCleanBackup env t).1.filter isDeletionEvent =
      (dispatchClean env t).1.filter isDeletionEvent := by
  obtain ⟨tail, htr⟩ := performClean_trace_extends_dispatch env t h
  cases hd2 : (dispatchClean env t).2 with
  | some e =>
    rw [performClean_fail env t _ e h (by rw [← hd2]), List.filter_append]
    simp [isDeletionEvent]
  | none =>
    rw [performClean_ok env t _ h (by rw [← hd2]), List.filter_append]
    simp [isDeletionEvent]

lemma updEventsOf_filter_deletion (env : Env) (o : Option Backup) :
    (updEventsOf env o).filter isDeletionEvent = [] := by
  cases o with
  | none => rfl
  | some nb =>
    rw [List.filter_eq_nil_iff]
    intro ev hev
    rcases updSize_forall env nb ev hev with rfl | ⟨m, rfl⟩ <;>
      simp [isDeletionEvent]

/-- C5: the dispatcher selects exactly one deletion primitive:
the volume-snapshot chain deletion on `volume-snapshot` mode, the
dedicated BR deletion when a tool descriptor is present, and otherwise
the generic deletion on the stored path with options derived from the
storage provider. -/
theorem c5_dispatch_selection (env : Env) (t : Backup)
    (h : t.backupPath ≠ "") :
    (t.mode = BackupMode.volumeSnapshot →
      (performCleanBackup env t).1.filter isDeletionEvent =
        [Event.deleteVolSnapshots t]) ∧
    (t.mode ≠ BackupMode.volumeSnapshot → t.br.isSome →
      (performCleanBackup env t).1.filter isDeletionEvent =
        [Event.deleteBR t]) ∧
    (t.mode ≠ BackupMode.volumeSnapshot → t.br = none →
      (performCleanBackup env t).1.filter isDeletionEvent =
        [Event.deleteRemote t.backupPath
          (env.getOptions t.storageProvider)]) := by
  rw [performClean_filter_deletion env t h]
  refine ⟨?_, ?_, ?_⟩
  · intro hm
    rw [dispatchClean_vs env t hm]
    have h1 : (nilLogOf (getNextBackup env t)).filter isDeletionEvent = [] := by
      rw [List.filter_eq_nil_iff]
      intro ev hev
      rcases nilLogOf_log _ ev hev with ⟨m, rfl⟩
      simp [isDeletionEvent]
    have h2 : (delFailLogOf (env.cleanVolSnapshots t)).filter
        isDeletionEvent = [] := by
      rw [List.filter_eq_nil_iff]
      intro ev hev
      rcases delFailLogOf_log _ ev hev with ⟨m, rfl⟩
      simp [isDeletionEvent]
    simp [List.filter_append, h1, h2, updEventsOf_filter_deletion,
      isDeletionEvent]
  · intro hm hbr
    rw [dispatchClean_br env t hm hbr]
    simp [isDeletionEvent]
  · intro hm hbr
    rw [dispatchClean_generic env t hm hbr]
    simp [isDeletionEvent]

/-- C8: every cleanup invocation writes exactly one outcome condition
(`Failed` or `Clean`) on the target; at most two status writes happen in
total, and any status write other than the target's outcome is the
single `Complete`/size write on the chain successor returned by
`getNextBackup`. -/
theorem c8_single_outcome_condition (env : Env) (t : Backup) :
    (performCleanBackup env t).1.countP (isOutcomeUpdateOn t) = 1 ∧
    (performCleanBackup env t).1.countP isUpdateEvent ≤ 2 ∧
    ∀ ev ∈ (performCleanBackup env t).1, isUpdateEvent ev = true →
      isOutcomeUpdateOn t ev = true ∨
      ∃ nb, getNextBackup env t = some nb ∧
        ev = Event.update nb completeCondition
          (some (succUpdateStatus env nb)) := by
  by_cases h : t.backupPath = ""
  · rw [performClean_emptyPath env t h]
    refine ⟨?_, ?_, ?_⟩
    · simp [List.countP_cons, isOutcomeUpdateOn, emptyPathCondition]
    · simp [List.countP_cons, isUpdateEvent]
    · intro ev hev hup
      left
      simp only [List.mem_cons, List.not_mem_nil, or_false] at hev
      rcases hev with rfl | rfl
      · simp [isUpdateEvent] at hup
      · simp [isOutcomeUpdateOn, emptyPathCondition]
  · cases hd2 : (dispatchClean env t).2 with
    | some e =>
      rw [performClean_fail env t _ e h (by rw [← hd2])]
      refine ⟨?_, ?_, ?_⟩
      · rw [List.countP_append, dispatch_countP_outcome]
        simp [List.countP_cons, isOutcomeUpdateOn, cleanFailedCondition]
      · rw [List.countP_append]
        have hle := dispatch_countP_update_le_one env t
        have htail : ([Event.log (LogMsg.cleanFailed e),
            Event.update t (cleanFailedCondition e) none].countP
              isUpdateEvent) = 1 := by
          simp [List.countP_cons, isUpdateEvent]
        omega
      · intro ev hev hup
        rcases List.mem_append.mp hev with hin | hin
        · rcases dispatch_events_shape env t ev hin with ⟨m, rfl⟩ | hdel | ⟨nb, hnb, rfl⟩
          · simp [isUpdateEvent] at hup
          · cases ev <;> simp_all [isDeletionEvent, isUpdateEvent]
          · exact Or.inr ⟨nb, hnb, rfl⟩
        · left
          simp only [List.mem_cons, List.not_mem_nil, or_false] at hin
          rcases hin with rfl | rfl
          · simp [isUpdateEvent] at hup
          · simp [isOutcomeUpdateOn, cleanFailedCondition]
    | none =>
      rw [performClean_ok env t _ h (by rw [← hd2])]
      refine ⟨?_, ?_, ?_⟩
      · rw [List.countP_append, dispatch_countP_outcome]
        simp [List.countP_cons, isOutcomeUpdateOn, cleanCondition]
      · rw [List.countP_append]
        have hle := dispatch_countP_update_le_one env t
        have htail : ([Event.log LogMsg.cleanSuccess,
            Event.update t cleanCondition none].countP
              isUpdateEvent) = 1 := by
          simp [List.countP_cons, isUpdateEvent]
        omega
      · intro ev hev hup
        rcases List.mem_append.mp hev with hin | hin
        · rcases dispatch_events_shape env t ev hin with ⟨m, rfl⟩ | hdel | ⟨nb, hnb, rfl⟩
          · simp [isUpdateEvent] at hup
          · cases ev <;> simp_all [isDeletionEvent, isUpdateEvent]
          · exact Or.inr ⟨nb, hnb, rfl⟩
        · left
          simp only [List.mem_cons, List.not_mem_nil, or_false] at hin
          rcases hin with rfl | rfl
          · simp [isUpdateEvent] at hup
          · simp [isOutcomeUpdateOn, cleanCondition]

/-- C2 (amended): for a volume-snapshot target with a chain successor,
the successor's `Complete`/size status write carrying the calculator's
output is issued regardless of the target's deletion outcome, errors of
the size calculator are logged, and the target's returned result is
independent of the successor update and of the status-update behaviour
on any other record; an error returned by the successor's status write
is discarded by the caller without being logged or merged. -/
theorem c2_successor_update_best_effort (env : Env) (t nb : Backup)
    (h1 : t.backupPath ≠ "") (h2 : t.mode = BackupMode.volumeSnapshot)
    (h3 : getNextBackup env t = some nb) :
    Event.update nb completeCondition (some (succUpdateStatus env nb)) ∈
      (performCleanBackup env t).1 ∧
    (∀ m, (env.calcVolSnapSize nb.storageProvider).2 = some m →
      Event.log (LogMsg.calcSizeWarn m) ∈ (performCleanBackup env t).1) ∧
    (∀ env' : Env, env'.cleanVolSnapshots t = env.cleanVolSnapshots t →
      (∀ c st, env'.statusUpdate t c st = env.statusUpdate t c st) →
      (performCleanBackup env' t).2 = (performCleanBackup env t).2) := by
  obtain ⟨tail, htr⟩ := performClean_trace_extends_dispatch env t h1
  have hupd : ∀ ev ∈ (updateVolumeSnapshotBackupSize env nb).1,
      ev ∈ (performCleanBackup env t).1 := by
    intro ev hev
    rw [htr]
    refine List.mem_append.mpr (Or.inl ?_)
    rw [dispatchClean_vs env t h2]
    refine List.mem_append.mpr (Or.inr ?_)
    rw [h3]
    exact hev
  refine ⟨?_, ?_, ?_⟩
  · exact hupd _ (updSize_update_mem env nb)
  · intro m hm
    refine hupd _ ?_
    rw [updSize_eq, hm]
    simp
  · intro env' hc hu
    exact performClean_vs_snd_congr env env' t h1 h2 hc hu

/-- C6: when the catalog listing fails, `getNextBackup` returns `none`,
the dispatch logs the nil-successor line, and the target's own returned
result is the same as under any environment agreeing on the chain
deletion and the target's status writes — the lookup failure is never
escalated into the result. -/
theorem c6_chain_lookup_soft_failure (env : Env) (t : Backup)
    (h1 : t.backupPath ≠ "") (h2 : t.mode = BackupMode.volumeSnapshot)
    (h3 : env.list t.ns = none) :
    getNextBackup env t = none ∧
    Event.log LogMsg.nextBackupNil ∈ (performCleanBackup env t).1 ∧
    (∀ env' : Env, env'.cleanVolSnapshots t = env.cleanVolSnapshots t →
      (∀ c st, env'.statusUpdate t c st = env.statusUpdate t c st) →
      (performCleanBackup env' t).2 = (performCleanBackup env t).2) := by
  have hnone : getNextBackup env t = none := by
    simp [getNextBackup, h3]
  refine ⟨hnone, ?_,
    fun env' hc hu => performClean_vs_snd_congr env env' t h1 h2 hc hu⟩
  obtain ⟨tail, htr⟩ := performClean_trace_extends_dispatch env t h1
  rw [htr]
  refine List.mem_append.mpr (Or.inl ?_)
  rw [dispatchClean_vs env t h2, hnone]
  simp [nilLogOf]

/-- C1: on a catalog listing of the target's namespace with pairwise
distinct names and start times containing the target, `getNextBackup`
returns the earliest volume-snapshot backup strictly after the target in
start-time order (skipping any intervening records of other modes),
returns `none` exactly when no volume-snapshot backup starts after the
target, and its result is invariant under permuting the listing — it
depends on start-time order, not listing order. -/
theorem c1_next_backup_chain_characterization (env : Env)
    (t : Backup) (l : List Backup) (tt : Backup)
    (hl : env.list t.ns = some l)
    (hn : (l.map Backup.name).Nodup)
    (ht : (l.map Backup.timeStarted).Nodup)
    (htt : tt ∈ l) (hname : tt.name = t.name) :
    (∀ s, getNextBackup env t = some s →
        s ∈ l ∧ s.mode = BackupMode.volumeSnapshot ∧
        tt.timeStarted < s.timeStarted ∧
        ∀ b ∈ l, b.mode = BackupMode.volumeSnapshot →
          tt.timeStarted < b.timeStarted →
          s.timeStarted ≤ b.timeStarted)
    ∧ (getNextBackup env t = none →
        ∀ b ∈ l, b.mode = BackupMode.volumeSnapshot →
          b.timeStarted ≤ tt.timeStarted)
    ∧ (∀ (env' : Env) (l' : List Backup), env'.list t.ns = some l' →
        List.Perm l' l → getNextBackup env' t = getNextBackup env t) := by
  have hGN : getNextBackup env t = getNextBackupL l t := by
    simp [getNextBackup, hl]
  have c := getNextBackupL_char l t tt hn ht htt hname
  refine ⟨?_, ?_, ?_⟩
  · intro s hs
    rw [hGN] at hs
    exact c.1 s hs
  · intro hnone
    rw [hGN] at hnone
    exact c.2 hnone
  · intro env' l' hl' hp
    have hGN' : getNextBackup env' t = getNextBackupL l' t := by
      simp [getNextBackup, hl']
    rw [hGN, hGN']
    exact getNextBackupL_perm_eq l l' t tt hp hn ht htt hname

/-- C10: the chain navigator is total: scanning past the last element is
scanning the empty sequence and yields `none`; a target whose name does
not occur in the listing yields `none`; and a target that is the last
element of the sorted sequence yields `none`. -/
theorem c10_navigator_totality (env : Env) (t : Backup) :
    getVolumeSnapshotBackup [] = none ∧
    (∀ l, env.list t.ns = some l → (∀ b ∈ l, b.name ≠ t.name) →
      getNextBackup env t = none) ∧
    (∀ l pre tt, env.list t.ns = some l →
      sortByTime l = pre ++ [tt] → tt.name = t.name →
      (∀ b ∈ pre, b.name ≠ t.name) →
      getNextBackup env t = none) := by
  refine ⟨rfl, ?_, ?_⟩
  · intro l hl hnames
    have habs : ∀ b ∈ sortByTime l, b.name ≠ t.name := by
      intro b hb
      exact hnames b ((sortByTime_perm l).mem_iff.mp hb)
    simp [getNextBackup, hl, getNextBackupL, findAfterName_none habs]
  · intro l pre tt hl hsort hname hpre
    have hfind : findAfterName t.name (sortByTime l) = some [] := by
      rw [hsort]
      exact findAfterName_append hpre hname
    simp [getNextBackup, hl, getNextBackupL, hfind, getVolumeSnapshotBackup]

/-- C7: when the size calculator returns an error, the successor update
is not aborted: the warning is logged, the computed size and its
human-readable rendering are still written together with a `Complete`
condition, and the update's result is the status write's result. -/
theorem c7_size_update_tolerates_calc_error (env : Env) (b : Backup)
    (sz : Int) (m : String)
    (h : env.calcVolSnapSize b.storageProvider = (sz, some m)) :
    (updateVolumeSnapshotBackupSize env b).1 =
      [Event.log (LogMsg.calcSizeWarn m),
        Event.update b completeCondition
          (some ⟨sz, env.humanizeBytes (toUInt64Wrap sz)⟩)] ∧
    (updateVolumeSnapshotBackupSize env b).2 =
      env.statusUpdate b completeCondition
        (some ⟨sz, env.humanizeBytes (toUInt64Wrap sz)⟩) := by
  rw [updSize_eq]
  constructor <;> simp [succUpdateStatus, h]

/-! Concrete fixtures used to instantiate the theorems. -/

def exA : Backup := ⟨"ns", "A", BackupMode.volumeSnapshot, none, "spA", "s3://a", 1⟩

def exB : Backup := ⟨"ns", "B", BackupMode.normal, none, "spB", "s3://b", 2⟩

def exC : Backup := ⟨"ns", "C", BackupMode.volumeSnapshot, none, "spC", "s3://c", 3⟩

def exG : Backup := ⟨"ns", "G", BackupMode.normal, none, "spG", "s3://g", 4⟩

def exE : Backup := ⟨"ns", "E", BackupMode.normal, none, "spE", "", 5⟩

def exR : Backup := ⟨"ns", "R", BackupMode.normal, some (), "spR", "s3://r", 6⟩

def exV : Backup := ⟨"ns", "V", BackupMode.volumeSnapshot, none, "spV", "s3://v", 7⟩

def exZ : Backup := ⟨"ns", "Z", BackupMode.volumeSnapshot, none, "spZ", "s3://z", 9⟩

def exEnvList : Env :=
  ⟨"bm", fun n => if n = "ns" then some [exC, exA, exB] else none,
    fun _ => none, fun _ => none, fun _ _ => none,
    fun sp => sp, fun _ => (42, none), fun n => toString n,
    fun _ _ _ => none⟩

def exEnvFail : Env :=
  ⟨"bm", fun _ => some [],
    fun _ => some "volerr", fun _ => some "brerr", fun _ _ => some "generr",
    fun sp => sp, fun _ => (0, none), fun n => toString n,
    fun _ _ _ => none⟩

def exEnvNoList : Env :=
  ⟨"bm", fun _ => none,
    fun _ => none, fun _ => none, fun _ _ => none,
    fun sp => sp, fun _ => (0, none), fun n => toString n,
    fun _ _ _ => none⟩

def exEnvCalcErr : Env :=
  ⟨"bm", fun _ => none,
    fun _ => none, fun _ => none, fun _ _ => none,
    fun sp => sp, fun _ => (12, some "calcboom"), fun n => toString n,
    fun _ _ _ => none⟩

def cT : Backup := ⟨"n", "T", BackupMode.volumeSnapshot, none, "spT", "s3://t", 1⟩

def cS : Backup := ⟨"n", "S", BackupMode.volumeSnapshot, none, "spS", "s3://s", 2⟩

/-- Environment in which the target `cT` cleans successfully, the
successor `cS` exists, the size calculator succeeds, and the successor's
status write fails with message `werr`. -/
def cEnv : Env :=
  ⟨"bm", fun n => if n = "n" then some [cT, cS] else none,
    fun _ => none, fun _ => none, fun _ _ => none,
    fun sp => sp, fun _ => (7, none), fun n => toString n,
    fun b _ _ => if b.name = "S" then some "werr" else none⟩

/-- Environment in which the target `cT` fails to delete, the size
calculator errs with `cw`, and the successor's status write fails with
`werr`. -/
def exEnvSuccFail : Env :=
  ⟨"bm", fun n => if n = "n" then some [cT, cS] else none,
    fun _ => some "derr", fun _ => none, fun _ _ => none,
    fun sp => sp, fun _ => (7, some "cw"), fun n => toString n,
    fun b _ _ => if b.name = "S" then some "werr" else none⟩

/-- C1 witness: records stored as [C(t=3,vs), A(t=1,vs), B(t=2,normal)];
the successor of A is C — the Normal-mode B in between is skipped, and
the scrambled listing order is irrelevant. -/
theorem c1_witness :
    getNextBackup exEnvList exA = some exC ∧
    exC.mode = BackupMode.volumeSnapshot ∧
    exA.timeStarted < exC.timeStarted := by
  have h := c1_next_backup_chain_characterization exEnvList exA
    [exC, exA, exB] exA (by decide) (by decide) (by decide) (by decide) rfl
  have hs : getNextBackup exEnvList exA = some exC := by decide
  exact ⟨hs, (h.1 exC hs).2.1, (h.1 exC hs).2.2.1⟩

/-- C2 counterexample: in `cEnv` the successor update is performed and
its status write returns the error `werr`, yet no log line of the
invocation carries `werr` and it does not appear in the returned result
either — refuting the claim that errors from the successor update are
logged. -/
theorem c2_counterexample :
    getNextBackup cEnv cT = some cS ∧
    (updateVolumeSnapshotBackupSize cEnv cS).2 = some "werr" ∧
    Event.update cS completeCondition (some ⟨7, "7"⟩) ∈
      (performCleanBackup cEnv cT).1 ∧
    (performCleanBackup cEnv cT).1.filter (logCarries "werr") = [] ∧
    "werr" ∉ (performCleanBackup cEnv cT).2 := by
  decide

/-- C2 witness: the successor's size write and the calculator-error log
line both appear in the trace even though the target's own deletion
failed. -/
theorem c2_witness :
    cT.backupPath ≠ "" ∧
    getNextBackup exEnvSuccFail cT = some cS ∧
    Event.update cS completeCondition
      (some (succUpdateStatus exEnvSuccFail cS)) ∈
      (performCleanBackup exEnvSuccFail cT).1 ∧
    Event.log (LogMsg.calcSizeWarn "cw") ∈
      (performCleanBackup exEnvSuccFail cT).1 := by
  have h := c2_successor_update_best_effort exEnvSuccFail cT cS
    (by decide) rfl (by decide)
  exact ⟨by decide, by decide, h.1, h.2.1 "cw" rfl⟩

/-- C3 witness: generic deletion fails with `generr` and the status
write succeeds; the returned aggregate still holds `generr`. -/
theorem c3_witness :
    exG.backupPath ≠ "" ∧
    (dispatchClean exEnvFail exG).2 = some "generr" ∧
    (performCleanBackup exEnvFail exG).2 = ["generr"] := by
  have h := c3_failure_aggregation exEnvFail exG "generr"
    (by decide) (by decide)
  exact ⟨by decide, by decide, h.2.2.2.2 rfl⟩

/-- C4 witness: an empty-path record short-circuits; with a succeeding
status write the returned result is nil. -/
theorem c4_witness :
    exE.backupPath = "" ∧ (performCleanBackup exEnvFail exE).2 = [] := by
  have h := c4_empty_path_short_circuit exEnvFail exE rfl
  exact ⟨rfl, h.2.2.2.trans rfl⟩

/-- C5 witness: a non-volume-snapshot record with a BR descriptor is
deleted through the dedicated primitive, and only through it. -/
theorem c5_witness :
    exR.backupPath ≠ "" ∧ exR.mode ≠ BackupMode.volumeSnapshot ∧
    exR.br.isSome = true ∧
    (performCleanBackup exEnvFail exR).1.filter isDeletionEvent =
      [Event.deleteBR exR] := by
  have h := c5_dispatch_selection exEnvFail exR (by decide)
  exact ⟨by decide, by decide, by decide, h.2.1 (by decide) (by decide)⟩

/-- C6 witness: with a failing catalog listing the navigator returns
`none` and the nil-successor log line is emitted. -/
theorem c6_witness :
    getNextBackup exEnvNoList exV = none ∧
    Event.log LogMsg.nextBackupNil ∈
      (performCleanBackup exEnvNoList exV).1 := by
  have h := c6_chain_lookup_soft_failure exEnvNoList exV (by decide) rfl rfl
  exact ⟨h.1, h.2.1⟩

/-- C7 witness: a failing size calculator still results in the warning
log followed by the `Complete`/size status write. -/
theorem c7_witness :
    exEnvCalcErr.calcVolSnapSize exV.storageProvider =
      (12, some "calcboom") ∧
    (updateVolumeSnapshotBackupSize exEnvCalcErr exV).1 =
      [Event.log (LogMsg.calcSizeWarn "calcboom"),
        Event.update exV completeCondition
          (some ⟨12, exEnvCalcErr.humanizeBytes (toUInt64Wrap 12)⟩)] := by
  have h := c7_size_update_tolerates_calc_error exEnvCalcErr exV
    12 "calcboom" rfl
  exact ⟨rfl, h.1⟩

/-- C8 witness: a concrete invocation writes exactly one outcome
condition on the target. -/
theorem c8_witness :
    (performCleanBackup exEnvFail exG).1.countP (isOutcomeUpdateOn exG) = 1 :=
  (c8_single_outcome_condition exEnvFail exG).1

/-- C9 witness: a succeeding generic deletion with a succeeding status
write returns nil. -/
theorem c9_witness :
    exG.backupPath ≠ "" ∧ (dispatchClean exEnvList exG).2 = none ∧
    (performCleanBackup exEnvList exG).2 = [] := by
  have h := c9_success_reporting exEnvList exG (by decide) (by decide)
  exact ⟨by decide, by decide, h.2.2.2 rfl⟩

/-- C10 witness: a target absent from the listing has no successor, and
the latest record of the sorted sequence has no successor. -/
theorem c10_witness :
    getNextBackup exEnvList exZ = none ∧
    getNextBackup exEnvList exC = none := by
  have h := c10_navigator_totality exEnvList exZ
  have h2 := c10_navigator_totality exEnvList exC
  exact ⟨h.2.1 [exC, exA, exB] (by decide) (by decide),
    h2.2.2 [exC, exA, exB] [exA, exB] exC (by decide) (by decide) rfl
      (by decide)⟩

end TidbBackupClean
